import Mathlib

/-!
Verification of the GNRC IPv6 core of `rust-riot-wrappers`
(`src/gnrc/ipv6.rs`): the bounded address list filled by
`gnrc_netif_ipv6_addrs_get`, the `IPv6Addr` value type with its
`FromStr` bridge to the platform primitive `ipv6_addr_from_str`,
its `Debug` rendering, and the compound parser
`split_ipv6_address`.

Modelling conventions:
  * byte strings (`&str` contents, C strings) are `List Nat`, each
    element a byte value;
  * `MaybeUninit<IPv6Addr>` slots are `Option IPv6Addr` (`none` =
    uninitialized); reading an uninitialized slot, or a slice-bounds
    panic, surface as `none` results of the operation;
  * fallible Rust operations return `Option` / `Except`;
  * the external platform collaborators (`ipv6_addr_from_str`, the
    `kernel_pid_t` integer parser, the netif query) are not part of
    this repository; they are modelled from the spec's description of
    their interfaces, and marked as such below.
-/

/-- A 16-byte IPv6 address: shallow embedding of
`#[repr(transparent)] struct IPv6Addr { inner: ipv6_addr_t }`, with
`ipv6_addr_t` seen through its `u8_: [u8; 16]` view. -/
structure IPv6Addr where
  u8_ : List Nat
deriving DecidableEq, Repr

/-- `IPv6Addr::clone_from_ptr`: copy the 16 bytes behind the pointer. -/
def IPv6Addr.clone_from_ptr (raw : List Nat) : IPv6Addr :=
  { u8_ := raw }

/-- `IPv6Addr::raw`: the 16-byte view. -/
def IPv6Addr.raw (a : IPv6Addr) : List Nat :=
  a.u8_

/-- `From<embedded_nal::Ipv6Addr> for IPv6Addr`: build from the
external type's octets. -/
def IPv6Addr.from_embedded_nal (octets : List Nat) : IPv6Addr :=
  { u8_ := octets }

/-- Value of an ASCII hex digit byte, `none` on a non-hex byte. -/
def hexVal (b : Nat) : Option Nat :=
  if 48 ≤ b ∧ b ≤ 57 then some (b - 48)
  else if 97 ≤ b ∧ b ≤ 102 then some (b - 87)
  else if 65 ≤ b ∧ b ≤ 70 then some (b - 55)
  else none

/-- Split a byte string at every colon (byte 58). -/
def splitOnColon : List Nat → List (List Nat)
  | [] => [[]]
  | b :: rest =>
    let r := splitOnColon rest
    if b = 58 then [] :: r
    else
      match r with
      | [] => [[b]]
      | g :: gs => (b :: g) :: gs

/-- One hexadecimal group of an IPv6 literal: 1 to 4 hex digits,
valued as a 16-bit number. -/
def group16 (g : List Nat) : Option Nat :=
  if g.length = 0 ∨ 4 < g.length then none
  else g.foldl (fun acc b => acc.bind fun a => (hexVal b).map fun v => a * 16 + v) (some 0)

/-- Index of the first occurrence of `::` (two adjacent colon bytes). -/
def findDoubleColon : List Nat → Option Nat
  | 58 :: 58 :: _ => some 0
  | _ :: rest => (findDoubleColon rest).map (· + 1)
  | [] => none

/-- The two bytes of a 16-bit group, network order. -/
def groupBytes (v : Nat) : List Nat :=
  [v / 256, v % 256]

/-- Modelled from the spec: the platform textual-to-binary conversion
primitive `riot_sys::ipv6_addr_from_str` (an external collaborator,
not part of this repository). Per the spec it accepts the plain
numeric IPv6 textual form: eight colon-separated groups of 1-4 hex
digits, or fewer groups with a single `::` zero-run compression; it
returns the 16 decoded bytes on success and a failure signal (here
`none`) otherwise. The argument is the C string it is handed: the
bytes before the terminating null. -/
def ipv6_addr_from_str (s : List Nat) : Option (List Nat) :=
  match findDoubleColon s with
  | none =>
    match (splitOnColon s).mapM group16 with
    | none => none
    | some vs =>
      if vs.length = 8 then some (List.flatten (vs.map groupBytes)) else none
  | some i =>
    let l := s.take i
    let r := s.drop (i + 2)
    let lgs := if l = [] then some [] else (splitOnColon l).mapM group16
    let rgs := if r = [] then some [] else (splitOnColon r).mapM group16
    match lgs, rgs with
    | some lv, some rv =>
      if lv.length + rv.length ≤ 7 then
        some (List.flatten ((lv ++ List.replicate (8 - lv.length - rv.length) 0 ++ rv).map groupBytes))
      else none
    | _, _ => none

/-- `IPv6Addr::from_str`, parameterized over the conversion primitive
it bridges to. Mirrors the code: a 40-byte zero-initialized scratch
buffer `with_null` holds 32 nibbles + 7 colons + the null byte; an
input longer than `with_null.len() - 1 = 39` bytes is rejected up
front; otherwise the input is copied into the buffer and the primitive
is invoked on the resulting C string, i.e. on the buffer's bytes
before the first null — `s.takeWhile (· != 0)`, since the rest of the
buffer is zero. The primitive's result alone decides the outcome. -/
def IPv6Addr.from_str_with (prim : List Nat → Option (List Nat)) (s : List Nat) :
    Option IPv6Addr :=
  if 39 < s.length then none
  else (prim (s.takeWhile (fun b => b != 0))).map IPv6Addr.mk

/-- `IPv6Addr::from_str` with the platform primitive plugged in. -/
def IPv6Addr.from_str (s : List Nat) : Option IPv6Addr :=
  IPv6Addr.from_str_with ipv6_addr_from_str s

/-- The lowercase hex digit byte for a nibble, as produced by Rust's
`{:02x}` formatting. -/
def hexDigit (n : Nat) : Nat :=
  if n < 10 then 48 + n else 87 + n

/-- The two lowercase hex digit bytes `{:02x}` prints for a byte. -/
def byteHex (b : Nat) : List Nat :=
  [hexDigit (b / 16), hexDigit (b % 16)]

/-- `impl Debug for IPv6Addr`: the bytes written by the single
`write!` call — sixteen `{:02x}` conversions with a colon after every
second one except the last. The catch-all arm is unreachable for
addresses holding the 16 bytes `ipv6_addr_t` guarantees. -/
def IPv6Addr.debugFmt (a : IPv6Addr) : List Nat :=
  match a.u8_ with
  | [b0, b1, b2, b3, b4, b5, b6, b7, b8, b9, b10, b11, b12, b13, b14, b15] =>
    byteHex b0 ++ byteHex b1 ++ 58 ::
    (byteHex b2 ++ byteHex b3 ++ 58 ::
    (byteHex b4 ++ byteHex b5 ++ 58 ::
    (byteHex b6 ++ byteHex b7 ++ 58 ::
    (byteHex b8 ++ byteHex b9 ++ 58 ::
    (byteHex b10 ++ byteHex b11 ++ 58 ::
    (byteHex b12 ++ byteHex b13 ++ 58 ::
    (byteHex b14 ++ byteHex b15)))))))
  | _ => []

/-- The bounded address list
`IPv6AddrList<MAX> { addresses: [MaybeUninit<IPv6Addr>; MAX], len }`.
The `MAX` parameter records the array bound; well-formed values have
`addresses.length = MAX`, stated as a hypothesis where needed. -/
structure IPv6AddrList (MAX : Nat) where
  addresses : List (Option IPv6Addr)
  len : Nat

/-- Reading a run of `MaybeUninit` slots as initialized values: the
transmuted slice holds the stored addresses when every slot is
initialized, and reading any uninitialized slot is the undefined
behaviour (`none`). -/
def readInit : List (Option IPv6Addr) → Option (List IPv6Addr)
  | [] => some []
  | none :: _ => none
  | some a :: rest => (readInit rest).map (a :: ·)

/-- `Deref for IPv6AddrList`: `&self.addresses[..self.len]`
reinterpreted as `&[IPv6Addr]`. The slice indexing panics when
`len` exceeds the array length (modelled as `none`), and the
transmute reads `len` initialized slots — reading an uninitialized
slot is the undefined behaviour the invariant rules out, also
modelled as `none`. -/
def IPv6AddrList.deref {MAX : Nat} (l : IPv6AddrList MAX) : Option (List IPv6Addr) :=
  if l.len ≤ l.addresses.length then readInit (l.addresses.take l.len)
  else none

/-- `IntoIterator for &IPv6AddrList`: `self[..].iter()`, i.e. the
sequence of elements of the deref slice, in order. -/
def IPv6AddrList.into_iter {MAX : Nat} (l : IPv6AddrList MAX) : Option (List IPv6Addr) :=
  l.deref

/-- `Netif::ipv6_addrs`. The external query
`gnrc_netif_ipv6_addrs_get` (a collaborator, not repository code) is
abstracted by its observable effect: `queryResult` is its returned
status (byte count, or negative error) and `storage` is the contents
of the `MAX`-slot buffer after the call. `negative_to_error` turns a
negative status into the numeric error; otherwise
`len = result as usize / size_of::<IPv6Addr>()` with
`size_of::<IPv6Addr>() = 16`, and the list is returned. -/
def Netif.ipv6_addrs (MAX : Nat) (queryResult : Int) (storage : List (Option IPv6Addr)) :
    Except Int (IPv6AddrList MAX) :=
  if queryResult < 0 then .error queryResult
  else .ok { addresses := storage, len := queryResult.toNat / 16 }

/-- One digit step of the interface-identifier parse: extend the
accumulated value by a decimal digit, failing on any non-digit. -/
def pidStep (acc : Option Nat) (b : Nat) : Option Nat :=
  acc.bind fun a => if 48 ≤ b ∧ b ≤ 57 then some (a * 10 + (b - 48)) else none

/-- Modelled from the spec: `str::parse::<kernel_pid_t>` for the
platform interface-identifier type (an external collaborator).
Per the spec the right part "must parse as a non-negative integer in
the platform's interface-identifier numeric domain": a nonempty
string of decimal digits; anything else (in particular `%` or
letters) is rejected. -/
def parse_pid (s : List Nat) : Option Nat :=
  if s = [] then none
  else s.foldl pidStep (some 0)

/-- `input.splitn(2, "%")` as the list of parts it yields: split at
the first `%` (byte 37) only; inputs without `%` give one part. -/
def splitn2 (input : List Nat) : List (List Nat) :=
  match input.findIdx? (fun b => b == 37) with
  | some i => [input.take i, input.drop (i + 1)]
  | none => [input]

/-- `split_ipv6_address`: take the part before the first `%` as the
address, the part after it (if any) as the numeric interface
identifier, reporting which stage failed. The iterator's first
`next()` is `parts[0]?`, the second is `parts[1]?`. -/
def split_ipv6_address (input : List Nat) : Except String (IPv6Addr × Option Nat) :=
  let parts := splitn2 input
  match parts[0]? with
  | none => .error "No address"
  | some l =>
    match IPv6Addr.from_str l with
    | none => .error "Unparsable address"
    | some a =>
      match parts[1]? with
      | none => .ok (a, none)
      | some r =>
        match parse_pid r with
        | none => .error "Non-numeric interface identifier"
        | some n => .ok (a, some n)

theorem findIdx_percent_append (l r : List Nat) (hl : 37 ∉ l) :
    (l ++ 37 :: r).findIdx? (fun b => b == 37) = some l.length := by
  induction l with
  | nil => simp [List.findIdx?_cons]
  | cons a t ih =>
    have ha : (a == 37) = false := by
      simp only [beq_eq_false_iff_ne, ne_eq]
      intro h0
      subst h0
      exact hl (List.mem_cons_self 37 t)
    have ht : 37 ∉ t := fun hm => hl (List.mem_cons_of_mem a hm)
    simp [List.findIdx?_cons, ha, ih ht]

theorem splitn2_append (l r : List Nat) (hl : 37 ∉ l) :
    splitn2 (l ++ 37 :: r) = [l, r] := by
  have h1 : (l ++ 37 :: r).take l.length = l := by
    rw [List.take_append_of_le_length (Nat.le_refl _), List.take_length]
  have h2 : (l ++ 37 :: r).drop (l.length + 1) = r := by
    simp [List.drop_append 1]
  simp only [splitn2, findIdx_percent_append l r hl, h1, h2]

/-- ASCII bytes of a Lean string literal, for concrete test vectors. -/
def ascii (s : String) : List Nat :=
  s.data.map Char.toNat

example : IPv6Addr.from_str (ascii "fe80::1") =
    some ⟨[254, 128, 0, 0, 0, 0, 0, 0, 0, 0, 0, 0, 0, 0, 0, 1]⟩ := by decide

example : split_ipv6_address (ascii "fe80::1%42") =
    .ok (⟨[254, 128, 0, 0, 0, 0, 0, 0, 0, 0, 0, 0, 0, 0, 0, 1]⟩, some 42) := rfl

example : split_ipv6_address (ascii "%42") = .error "Unparsable address" := rfl

example : split_ipv6_address (ascii "fe80::1%abc") =
    .error "Non-numeric interface identifier" := rfl

example : split_ipv6_address (ascii "not-an-address%1") = .error "Unparsable address" := rfl

example : IPv6Addr.from_str (ascii "::") = some ⟨List.replicate 16 0⟩ := by decide

example : (IPv6Addr.mk [0xfe, 0x80, 0, 0, 0, 0, 0, 0, 0, 0, 0, 0, 0, 0, 0, 1]).debugFmt =
    ascii "fe80:0000:0000:0000:0000:0000:0000:0001" := by decide

/-- The all-zero address, used as a concrete value in witnesses. -/
def zeroAddr : IPv6Addr :=
  ⟨List.replicate 16 0⟩

theorem readInit_map_some (vs : List IPv6Addr) :
    readInit (vs.map some) = some vs := by
  induction vs with
  | nil => rfl
  | cons a t ih => simp [readInit, ih]

/-- C1. Every fill computes `len` as the reported byte count divided
by 16 (the address size), unclamped; under the query contract
(at most `16 * MAX` bytes reported) this `len` never exceeds `MAX`;
and a report that drives `len` past `MAX` makes every read access of
the list hit the slice bounds check and panic — RIOT's unconditional
abort — rather than be silently accepted or truncated (the panic is
modelled by `deref = none`). -/
theorem c1_fill_len_bounded (MAX : Nat) (q : Int) (st : List (Option IPv6Addr))
    (hst : st.length = MAX) (l : IPv6AddrList MAX)
    (h : Netif.ipv6_addrs MAX q st = .ok l) :
    l.len = q.toNat / 16 ∧
    (q ≤ 16 * MAX → l.len ≤ MAX) ∧
    (MAX < l.len → l.deref = none) := by
  unfold Netif.ipv6_addrs at h
  split at h
  · exact absurd h (by simp)
  · rename_i hq
    obtain rfl : l = ⟨st, q.toNat / 16⟩ := by
      cases h
      rfl
    refine ⟨rfl, fun hle => ?_, fun hgt => ?_⟩
    · show q.toNat / 16 ≤ MAX
      omega
    · have hgt2 : MAX < q.toNat / 16 := hgt
      have hno : ¬ (q.toNat / 16 ≤ st.length) := by omega
      simp [IPv6AddrList.deref, hno]

theorem c1_fill_len_bounded_witness :
    (⟨[some zeroAddr], 1⟩ : IPv6AddrList 1).len = (16 : Int).toNat / 16 ∧
    ((16 : Int) ≤ 16 * 1 → (⟨[some zeroAddr], 1⟩ : IPv6AddrList 1).len ≤ 1) ∧
    (1 < (⟨[some zeroAddr], 1⟩ : IPv6AddrList 1).len →
      (⟨[some zeroAddr], 1⟩ : IPv6AddrList 1).deref = none) :=
  c1_fill_len_bounded 1 16 [some zeroAddr] rfl ⟨[some zeroAddr], 1⟩ rfl

/-- C4. When the prefix-initialization invariant holds — the array has
its `MAX` slots, `len ≤ MAX`, and the first `len` slots hold the
addresses `vs` — the deref view and the iterator both yield exactly
`vs`: length exactly `len`, each of the first `len` stored addresses
once, in storage order; and the view depends only on the first `len`
slots, so it never exposes a slot with index in `[len, MAX)`. -/
theorem c4_view_is_initialized_prefix (MAX : Nat) (l : IPv6AddrList MAX)
    (vs : List IPv6Addr) (hst : l.addresses.length = MAX) (hlen : l.len ≤ MAX)
    (hinit : l.addresses.take l.len = vs.map some) :
    l.deref = some vs ∧
    l.into_iter = some vs ∧
    vs.length = l.len ∧
    (∀ i, i < l.len → l.addresses[i]? = (vs[i]?).map some) ∧
    (∀ m : IPv6AddrList MAX, m.addresses.length = MAX → m.len = l.len →
      m.addresses.take m.len = l.addresses.take l.len → m.deref = l.deref) := by
  have hd : l.deref = some vs := by
    unfold IPv6AddrList.deref
    rw [if_pos (by omega), hinit, readInit_map_some]
  have hvl : vs.length = l.len := by
    have := congrArg List.length hinit
    simp at this
    omega
  refine ⟨hd, hd, hvl, fun i hi => ?_, fun m hmst hmlen hmtake => ?_⟩
  · have h1 : l.addresses[i]? = (l.addresses.take l.len)[i]? := by
      rw [List.getElem?_take_of_lt hi]
    rw [h1, hinit, List.getElem?_map]
  · unfold IPv6AddrList.deref
    rw [hmtake, hmlen, hmst, hst]

theorem c4_view_is_initialized_prefix_witness :
    (⟨[some zeroAddr, none], 1⟩ : IPv6AddrList 2).deref = some [zeroAddr] ∧
    (⟨[some zeroAddr, none], 1⟩ : IPv6AddrList 2).into_iter = some [zeroAddr] ∧
    [zeroAddr].length = (⟨[some zeroAddr, none], 1⟩ : IPv6AddrList 2).len ∧
    (∀ i, i < (⟨[some zeroAddr, none], 1⟩ : IPv6AddrList 2).len →
      ([some zeroAddr, none] : List (Option IPv6Addr))[i]? = ([zeroAddr][i]?).map some) ∧
    (∀ m : IPv6AddrList 2, m.addresses.length = 2 →
      m.len = (⟨[some zeroAddr, none], 1⟩ : IPv6AddrList 2).len →
      m.addresses.take m.len =
        ([some zeroAddr, none] : List (Option IPv6Addr)).take 1 →
      m.deref = (⟨[some zeroAddr, none], 1⟩ : IPv6AddrList 2).deref) :=
  c4_view_is_initialized_prefix 2 ⟨[some zeroAddr, none], 1⟩ [zeroAddr] rfl
    (by decide) rfl

/-- C5. The fill returns an error exactly when the query status is
negative, and then the error is that numeric status and no list is
handed out; a successful query reporting 0 bytes yields a list with
`len = 0`, whose view is the empty slice and whose iteration is
empty. -/
theorem c5_fill_error_iff_negative (MAX : Nat) (q : Int)
    (st : List (Option IPv6Addr)) :
    ((∃ e, Netif.ipv6_addrs MAX q st = .error e) ↔ q < 0) ∧
    (q < 0 → Netif.ipv6_addrs MAX q st = .error q) ∧
    (∀ l : IPv6AddrList MAX, Netif.ipv6_addrs MAX 0 st = .ok l →
      l.len = 0 ∧ l.deref = some [] ∧ l.into_iter = some []) := by
  refine ⟨⟨fun ⟨e, he⟩ => ?_, fun hq => ?_⟩, fun hq => ?_, fun l hl => ?_⟩
  · by_contra hq
    unfold Netif.ipv6_addrs at he
    rw [if_neg hq] at he
    exact absurd he (by simp)
  · unfold Netif.ipv6_addrs
    rw [if_pos hq]
    exact ⟨q, rfl⟩
  · unfold Netif.ipv6_addrs
    rw [if_pos hq]
  · unfold Netif.ipv6_addrs at hl
    rw [if_neg (by omega)] at hl
    obtain rfl : l = ⟨st, 0⟩ := by
      cases hl
      rfl
    have hd : (⟨st, 0⟩ : IPv6AddrList MAX).deref = some [] := by
      unfold IPv6AddrList.deref
      rw [if_pos (Nat.zero_le _)]
      rfl
    exact ⟨rfl, hd, hd⟩

theorem takeWhile_bne_zero_of_not_mem (s : List Nat) (h : 0 ∉ s) :
    s.takeWhile (fun b => b != 0) = s := by
  induction s with
  | nil => rfl
  | cons a t ih =>
    have ha : a ≠ 0 := by
      intro h0
      subst h0
      exact h (List.mem_cons_self 0 t)
    have ht : 0 ∉ t := fun hm => h (List.mem_cons_of_mem a hm)
    simp [List.takeWhile_cons, bne_iff_ne, ha, ih ht]

/-- C3. An input of 40 or more bytes is rejected with no appeal to
the conversion primitive — the result is `none` whatever primitive
`p` is plugged in — while an input of at most 39 bytes is handed to
the primitive (as the C string the scratch buffer holds, the bytes
before the first null, which is the input itself when it has no null
byte), and the primitive's return signal alone decides the result. -/
theorem c3_length_precheck (s : List Nat) :
    (40 ≤ s.length → ∀ p, IPv6Addr.from_str_with p s = none) ∧
    (s.length ≤ 39 → ∀ p, IPv6Addr.from_str_with p s =
      (p (s.takeWhile (fun b => b != 0))).map IPv6Addr.mk) ∧
    (s.length ≤ 39 → 0 ∉ s → ∀ p, IPv6Addr.from_str_with p s =
      (p s).map IPv6Addr.mk) ∧
    (s.length ≤ 39 → (IPv6Addr.from_str s).isSome =
      (ipv6_addr_from_str (s.takeWhile (fun b => b != 0))).isSome) := by
  refine ⟨fun h40 p => ?_, fun h39 p => ?_, fun h39 h0 p => ?_, fun h39 => ?_⟩
  · unfold IPv6Addr.from_str_with
    rw [if_pos (by omega)]
  · unfold IPv6Addr.from_str_with
    rw [if_neg (by omega)]
  · unfold IPv6Addr.from_str_with
    rw [if_neg (by omega), takeWhile_bne_zero_of_not_mem s h0]
  · unfold IPv6Addr.from_str IPv6Addr.from_str_with
    rw [if_neg (by omega)]
    cases ipv6_addr_from_str (s.takeWhile (fun b => b != 0)) <;> simp

theorem c3_length_precheck_witness :
    IPv6Addr.from_str_with ipv6_addr_from_str (List.replicate 40 102) = none ∧
    IPv6Addr.from_str_with ipv6_addr_from_str (ascii "fe80::1") =
      (ipv6_addr_from_str ((ascii "fe80::1").takeWhile (fun b => b != 0))).map
        IPv6Addr.mk :=
  ⟨(c3_length_precheck _).1 (by decide) _, (c3_length_precheck _).2.1 (by decide) _⟩

theorem takeWhile_eq_take_of_first_zero (l : List Nat) (k : Nat)
    (hz : l[k]? = some 0) (hnz : ∀ j, j < k → l[j]? ≠ some 0) :
    l.takeWhile (fun b => b != 0) = l.take k := by
  induction l generalizing k with
  | nil => simp at hz
  | cons a t ih =>
    cases k with
    | zero =>
      have ha : a = 0 := by simpa using hz
      subst ha
      simp [List.takeWhile_cons]
    | succ k =>
      have ha : a ≠ 0 := by
        have := hnz 0 (Nat.succ_pos k)
        simpa using this
      have hz2 : t[k]? = some 0 := by simpa using hz
      have hnz2 : ∀ j, j < k → t[j]? ≠ some 0 := by
        intro j hj
        have := hnz (j + 1) (by omega)
        simpa using this
      simp [List.takeWhile_cons, bne_iff_ne, ha, ih k hz2 hnz2, List.take_succ_cons]

/-- C10. The parser's scratch buffer is zero-initialized, so the
conversion primitive sees only the bytes before the first null: two
inputs of at most 39 bytes that agree up to and including the first
zero byte of the first parse identically — in particular, for an
input with an interior null byte, the bytes after it have no effect
on the result. -/
theorem c10_nul_truncation (b1 b2 : List Nat) (k : Nat)
    (h1 : b1.length ≤ 39) (h2 : b2.length ≤ 39)
    (hz : b1[k]? = some 0) (hnz : ∀ j, j < k → b1[j]? ≠ some 0)
    (hagree : b1.take (k + 1) = b2.take (k + 1)) :
    IPv6Addr.from_str b1 = IPv6Addr.from_str b2 := by
  have e1 : b1.takeWhile (fun b => b != 0) = b1.take k :=
    takeWhile_eq_take_of_first_zero b1 k hz hnz
  have hk1 : k < b1.length := by
    by_contra hub
    rw [List.getElem?_eq_none (by omega)] at hz
    exact absurd hz (by simp)
  have hz2 : b2[k]? = some 0 := by
    have h3 : (b1.take (k + 1))[k]? = some 0 := by
      rw [List.getElem?_take_of_lt (by omega)]
      exact hz
    rw [hagree, List.getElem?_take_of_lt (by omega)] at h3
    exact h3
  have hnz2 : ∀ j, j < k → b2[j]? ≠ some 0 := by
    intro j hj
    have h3 : (b2.take (k + 1))[j]? = b2[j]? := List.getElem?_take_of_lt (by omega)
    rw [← hagree, List.getElem?_take_of_lt (by omega)] at h3
    rw [← h3]
    exact hnz j hj
  have e2 : b2.takeWhile (fun b => b != 0) = b2.take k :=
    takeWhile_eq_take_of_first_zero b2 k hz2 hnz2
  have etake : b1.take k = b2.take k := by
    have h4 := congrArg (List.take k) hagree
    have hmin : min k (k + 1) = k := by omega
    rw [List.take_take, hmin, List.take_take, hmin] at h4
    exact h4
  unfold IPv6Addr.from_str IPv6Addr.from_str_with
  rw [if_neg (by omega), if_neg (by omega), e1, e2, etake]

theorem c10_nul_truncation_witness :
    ([102, 0, 99] : List Nat).length ≤ 39 ∧
    ([102, 0, 120, 120] : List Nat).length ≤ 39 ∧
    ([102, 0, 99] : List Nat)[1]? = some 0 ∧
    (∀ j, j < 1 → ([102, 0, 99] : List Nat)[j]? ≠ some 0) ∧
    ([102, 0, 99] : List Nat).take 2 = ([102, 0, 120, 120] : List Nat).take 2 ∧
    IPv6Addr.from_str [102, 0, 99] = IPv6Addr.from_str [102, 0, 120, 120] :=
  ⟨by decide, by decide, by decide, by decide, by decide,
    c10_nul_truncation [102, 0, 99] [102, 0, 120, 120] 1 (by decide) (by decide)
      (by decide) (by decide) (by decide)⟩

/-- C2 is false on the code: `"%42"` (empty part before `%`) fails
with `"Unparsable address"`, not with the claimed `"No address"`. -/
theorem c2_counterexample :
    split_ipv6_address (ascii "%42") = .error "Unparsable address" ∧
    ((split_ipv6_address (ascii "%42") =
        (.error "No address" : Except String (IPv6Addr × Option Nat))) = False) := by
  have h1 : split_ipv6_address (ascii "%42") = .error "Unparsable address" := rfl
  refine ⟨h1, ?_⟩
  rw [h1]
  exact eq_false fun h => absurd (Except.error.inj h) (by decide)

/-- C2 (amended). An input whose part before the first `%` is empty
fails, but with the `"Unparsable address"` reason: the empty left
part is handed to the address parser, which rejects it. The
`"No address"` reason is unreachable — `splitn` always yields a first
part, so no input at all produces it. -/
theorem c2_amended_empty_left_is_unparsable :
    split_ipv6_address (ascii "%42") = .error "Unparsable address" ∧
    (∀ input, split_ipv6_address input ≠ .error "No address") := by
  refine ⟨rfl, fun input h => ?_⟩
  obtain ⟨l, hl⟩ : ∃ l, (splitn2 input)[0]? = some l := by
    unfold splitn2
    cases input.findIdx? (fun b => b == 37) <;> simp
  cases hfs : IPv6Addr.from_str l with
  | none =>
    rw [split_ipv6_address, hl] at h
    simp [hfs] at h
  | some a =>
    cases hp1 : (splitn2 input)[1]? with
    | none =>
      rw [split_ipv6_address, hl] at h
      simp [hfs, hp1] at h
    | some r =>
      cases hpp : parse_pid r with
      | none =>
        rw [split_ipv6_address, hl] at h
        simp [hfs, hp1, hpp] at h
      | some n =>
        rw [split_ipv6_address, hl] at h
        simp [hfs, hp1, hpp] at h

theorem c2_amended_witness :
    split_ipv6_address (ascii "fe80::1") ≠ .error "No address" :=
  c2_amended_empty_left_is_unparsable.2 (ascii "fe80::1")

/-- A byte that is a lowercase hexadecimal digit character. -/
def isLowerHexDigit (c : Nat) : Prop :=
  (48 ≤ c ∧ c ≤ 57) ∨ (97 ≤ c ∧ c ≤ 102)

theorem hexDigit_props (v : Nat) (h : v < 16) :
    isLowerHexDigit (hexDigit v) ∧ hexDigit v ≠ 58 := by
  unfold hexDigit isLowerHexDigit
  split <;> omega

theorem intercalate_colon (g0 g1 g2 g3 g4 g5 g6 g7 : List Nat) :
    List.intercalate [58] [g0, g1, g2, g3, g4, g5, g6, g7] =
      g0 ++ 58 :: (g1 ++ 58 :: (g2 ++ 58 :: (g3 ++ 58 ::
        (g4 ++ 58 :: (g5 ++ 58 :: (g6 ++ 58 :: g7)))))) := by
  simp [List.intercalate, List.intersperse]

/-- C8. For every address value (all byte patterns of its 16 bytes),
the debug rendering is exactly 39 bytes: eight groups of exactly 4
lowercase hexadecimal digit characters (zero-padded by `{:02x}`)
separated by single colons — so no `::` zero-run compression can
occur — and the example bytes `fe 80 00 … 00 01` render as
`fe80:0000:0000:0000:0000:0000:0000:0001`. -/
theorem c8_debug_format (b0 b1 b2 b3 b4 b5 b6 b7 b8 b9 b10 b11 b12 b13 b14 b15 : Nat)
    (h0 : b0 < 256) (h1 : b1 < 256) (h2 : b2 < 256) (h3 : b3 < 256)
    (h4 : b4 < 256) (h5 : b5 < 256) (h6 : b6 < 256) (h7 : b7 < 256)
    (h8 : b8 < 256) (h9 : b9 < 256) (h10 : b10 < 256) (h11 : b11 < 256)
    (h12 : b12 < 256) (h13 : b13 < 256) (h14 : b14 < 256) (h15 : b15 < 256) :
    (IPv6Addr.mk [b0, b1, b2, b3, b4, b5, b6, b7,
      b8, b9, b10, b11, b12, b13, b14, b15]).debugFmt.length = 39 ∧
    (∃ gs : List (List Nat), gs.length = 8 ∧
      (∀ g ∈ gs, g.length = 4 ∧ ∀ c ∈ g, isLowerHexDigit c ∧ c ≠ 58) ∧
      (IPv6Addr.mk [b0, b1, b2, b3, b4, b5, b6, b7,
        b8, b9, b10, b11, b12, b13, b14, b15]).debugFmt =
        List.intercalate [58] gs) ∧
    (IPv6Addr.mk [0xfe, 0x80, 0, 0, 0, 0, 0, 0, 0, 0, 0, 0, 0, 0, 0, 1]).debugFmt =
      ascii "fe80:0000:0000:0000:0000:0000:0000:0001" := by
  refine ⟨?_, ?_, by decide⟩
  · simp [IPv6Addr.debugFmt, byteHex]
  · refine ⟨[byteHex b0 ++ byteHex b1, byteHex b2 ++ byteHex b3,
      byteHex b4 ++ byteHex b5, byteHex b6 ++ byteHex b7,
      byteHex b8 ++ byteHex b9, byteHex b10 ++ byteHex b11,
      byteHex b12 ++ byteHex b13, byteHex b14 ++ byteHex b15], rfl, ?_, ?_⟩
    · intro g hg
      simp only [List.mem_cons, List.not_mem_nil, or_false] at hg
      rcases hg with rfl | rfl | rfl | rfl | rfl | rfl | rfl | rfl <;>
        refine ⟨by simp [byteHex], fun c hc => ?_⟩ <;>
        · simp only [byteHex, List.mem_append, List.mem_cons,
            List.not_mem_nil, or_false] at hc
          rcases hc with (rfl | rfl) | (rfl | rfl) <;> exact hexDigit_props _ (by omega)
    · rw [intercalate_colon]
      simp [IPv6Addr.debugFmt, List.append_assoc]

theorem c8_debug_format_witness :
    (IPv6Addr.mk [254, 128, 0, 0, 0, 0, 0, 0,
      0, 0, 0, 0, 0, 0, 0, 1]).debugFmt.length = 39 ∧
    (∃ gs : List (List Nat), gs.length = 8 ∧
      (∀ g ∈ gs, g.length = 4 ∧ ∀ c ∈ g, isLowerHexDigit c ∧ c ≠ 58) ∧
      (IPv6Addr.mk [254, 128, 0, 0, 0, 0, 0, 0,
        0, 0, 0, 0, 0, 0, 0, 1]).debugFmt = List.intercalate [58] gs) ∧
    (IPv6Addr.mk [0xfe, 0x80, 0, 0, 0, 0, 0, 0, 0, 0, 0, 0, 0, 0, 0, 1]).debugFmt =
      ascii "fe80:0000:0000:0000:0000:0000:0000:0001" :=
  c8_debug_format 254 128 0 0 0 0 0 0 0 0 0 0 0 0 0 1
    (by decide) (by decide) (by decide) (by decide) (by decide) (by decide)
    (by decide) (by decide) (by decide) (by decide) (by decide) (by decide)
    (by decide) (by decide) (by decide) (by decide)

/-- C9. Two address values are equal exactly when their byte views
are identical — the type adds nothing beyond the bytes, so values
from identical byte inputs compare equal whichever construction path
produced them (foreign-pointer copy, textual parse, external-type
conversion), any difference at a byte position makes them unequal,
and no semantic normalization is applied. -/
theorem c9_equality_is_byte_exact :
    (∀ a b : IPv6Addr, a = b ↔ a.u8_ = b.u8_) ∧
    (∀ o : List Nat, IPv6Addr.clone_from_ptr o = IPv6Addr.from_embedded_nal o) ∧
    (∀ s a, IPv6Addr.from_str s = some a → a = IPv6Addr.clone_from_ptr a.u8_) ∧
    (∀ a b : IPv6Addr, ∀ i : Nat, a.u8_[i]? ≠ b.u8_[i]? → a ≠ b) := by
  refine ⟨fun a b => ?_, fun o => rfl, fun s a _ => ?_, fun a b i hne hab => ?_⟩
  · constructor
    · intro h
      rw [h]
    · intro h
      cases a
      cases b
      cases h
      rfl
  · cases a
    rfl
  · rw [hab] at hne
    exact hne rfl

theorem c9_equality_is_byte_exact_witness :
    zeroAddr ≠ IPv6Addr.clone_from_ptr (1 :: List.replicate 15 0) :=
  c9_equality_is_byte_exact.2.2.2 zeroAddr
    (IPv6Addr.clone_from_ptr (1 :: List.replicate 15 0)) 0 (by decide)

theorem foldl_pidStep_none (r : List Nat) : r.foldl pidStep none = none := by
  induction r with
  | nil => rfl
  | cons a t ih =>
    rw [List.foldl_cons]
    exact ih

theorem foldl_pidStep_percent (r : List Nat) (h : 37 ∈ r) (acc : Option Nat) :
    r.foldl pidStep acc = none := by
  induction r generalizing acc with
  | nil => cases h
  | cons a t ih =>
    rw [List.foldl_cons]
    rcases List.mem_cons.mp h with h37 | h37
    · subst h37
      have hs : pidStep acc 37 = none := by
        cases acc <;> simp [pidStep]
      rw [hs]
      exact foldl_pidStep_none t
    · exact ih h37 _

theorem parse_pid_percent (r : List Nat) (h : 37 ∈ r) : parse_pid r = none := by
  unfold parse_pid
  rw [if_neg (by intro he; subst he; cases h)]
  exact foldl_pidStep_percent r h (some 0)

/-- C6. The compound parser splits only on the first `%`: the part
before it is parsed as the address and everything after it — further
`%` bytes included — is handed to the numeric interface parse, where
any `%` makes it fail; `"fe80::1%42"` gives the `fe80::…:1` address
with interface `some 42`, and `"fe80::1"` gives the same address with
interface `none`. -/
theorem c6_split_first_percent :
    split_ipv6_address (ascii "fe80::1%42") =
      .ok (⟨[254, 128, 0, 0, 0, 0, 0, 0, 0, 0, 0, 0, 0, 0, 0, 1]⟩, some 42) ∧
    split_ipv6_address (ascii "fe80::1") =
      .ok (⟨[254, 128, 0, 0, 0, 0, 0, 0, 0, 0, 0, 0, 0, 0, 0, 1]⟩, none) ∧
    (∀ l r a, 37 ∉ l → IPv6Addr.from_str l = some a →
      (∀ n, parse_pid r = some n →
        split_ipv6_address (l ++ 37 :: r) = .ok (a, some n)) ∧
      (parse_pid r = none →
        split_ipv6_address (l ++ 37 :: r) =
          .error "Non-numeric interface identifier")) ∧
    (∀ r, 37 ∈ r → parse_pid r = none) := by
  refine ⟨rfl, rfl, fun l r a hl hfs => ⟨fun n hn => ?_, fun hn => ?_⟩,
    parse_pid_percent⟩
  · rw [split_ipv6_address, splitn2_append l r hl]
    simp [hfs, hn]
  · rw [split_ipv6_address, splitn2_append l r hl]
    simp [hfs, hn]

theorem c6_split_first_percent_witness :
    split_ipv6_address (ascii "fe80::1" ++ 37 :: ascii "4%2") =
      .error "Non-numeric interface identifier" :=
  (c6_split_first_percent.2.2.1 (ascii "fe80::1") (ascii "4%2")
    ⟨[254, 128, 0, 0, 0, 0, 0, 0, 0, 0, 0, 0, 0, 0, 0, 1]⟩
    (by decide) (by decide)).2 (by decide)

/-- C7. A part after the first `%` must be a non-negative decimal
number in the platform interface-identifier domain; content that is
not (such as `"abc"`, or anything containing a non-digit) yields the
`"Non-numeric interface identifier"` failure, a value distinct from
the address-parse failure `"Unparsable address"`. -/
theorem c7_interface_must_be_numeric :
    split_ipv6_address (ascii "fe80::1%abc") =
      .error "Non-numeric interface identifier" ∧
    parse_pid (ascii "abc") = none ∧
    (∀ l r a, 37 ∉ l → IPv6Addr.from_str l = some a → parse_pid r = none →
      split_ipv6_address (l ++ 37 :: r) =
        .error "Non-numeric interface identifier") ∧
    ((Except.error "Non-numeric interface identifier" :
        Except String (IPv6Addr × Option Nat)) =
      .error "Unparsable address") = False := by
  refine ⟨rfl, rfl, fun l r a hl hfs hn => ?_, ?_⟩
  · rw [split_ipv6_address, splitn2_append l r hl]
    simp [hfs, hn]
  · exact eq_false fun h => absurd (Except.error.inj h) (by decide)

theorem c7_interface_must_be_numeric_witness :
    split_ipv6_address (ascii "::" ++ 37 :: ascii "x") =
      .error "Non-numeric interface identifier" :=
  c7_interface_must_be_numeric.2.2.1 (ascii "::") (ascii "x") zeroAddr
    (by decide) (by decide) (by decide)

theorem c5_fill_error_iff_negative_witness :
    ((∃ e, Netif.ipv6_addrs 2 (-3) [none, none] = .error e) ↔ (-3 : Int) < 0) ∧
    ((-3 : Int) < 0 → Netif.ipv6_addrs 2 (-3) [none, none] = .error (-3)) ∧
    (∀ l : IPv6AddrList 2, Netif.ipv6_addrs 2 0 [none, none] = .ok l →
      l.len = 0 ∧ l.deref = some [] ∧ l.into_iter = some []) :=
  c5_fill_error_iff_negative 2 (-3) [none, none]
